/-
Verification of the logstash adapter's multi-line coalescing stream driver,
event construction, classifier, hostname resolution and adapter factory,
as a shallow embedding of src/logstash.go.
-/
import Mathlib

namespace Logstash

/-! ## Data model

`Message` mirrors the Go `Message` struct (the wire event and also the
buffered-line shape, where only the `message` field is populated).
`RouterMessage` mirrors `router.Message` as consumed by `Stream`:
`Data`, `Source`, `Container.ID`, `Container.Name`, `Container.Config.Image`,
`Container.Config.Hostname`. -/

structure Message where
  message : String
  name : String
  id : String
  image : String
  hostname : String
  host : String
  stream : String
  tags : List String
deriving DecidableEq, Repr

structure ContainerConfig where
  image : String
  hostname : String
deriving DecidableEq, Repr

structure Container where
  id : String
  name : String
  config : ContainerConfig
deriving DecidableEq, Repr

structure RouterMessage where
  data : String
  source : String
  container : Container
deriving DecidableEq, Repr

/-! ## Multi-line classifier

Go source: `regexps` is the ordered list
`^\s`, `line \d+, in .+`, `Traceback `, `LINE \d+:`, and `IsMultiline`
returns true when any of them matches (`regexp.Match` is an unanchored
search except where the pattern itself carries `^`).  In RE2, `\s` is
`[\t\n\f\r ]`, `\d` is `[0-9]`, and `.` matches any character except
newline. -/

/-- RE2 whitespace class: the characters matched by the Go regex `\s`. -/
def isSpaceGo (c : Char) : Bool :=
  c = ' ' || c = '\t' || c = '\n' || c = '\x0c' || c = '\r'

/-- Unanchored search: does `p` hold at some position (suffix) of the list? -/
def anySuffix (p : List Char → Bool) : List Char → Bool
  | [] => p []
  | c :: cs => p (c :: cs) || anySuffix p cs

/-- Matcher for the anchored pattern `^\s`: the text begins with an RE2
whitespace character. -/
def startsWithSpace : List Char → Bool
  | [] => false
  | c :: _ => isSpaceGo c

/-- Does the list start with a character other than newline?  This is
what it takes for `.+` (with `.` excluding newline) to match here. -/
def nonNewlineHead (l : List Char) : Bool :=
  match l.head? with
  | some c => c != '\n'
  | none => false

/-- Matcher for `line \d+, in .+` at a fixed position: the literal
`"line "`, then one or more digits, then `", in "`, then at least one
non-newline character.  Because `,` is not a digit, the greedy digit run
is the only candidate for `\d+`. -/
def matchLineInAt (s : List Char) : Bool :=
  "line ".data.isPrefixOf s &&
  !((s.drop 5).takeWhile Char.isDigit).isEmpty &&
  ", in ".data.isPrefixOf ((s.drop 5).dropWhile Char.isDigit) &&
  nonNewlineHead (((s.drop 5).dropWhile Char.isDigit).drop 5)

/-- Matcher for the (unanchored in the source!) pattern `Traceback ` at a
fixed position: the literal `"Traceback "`. -/
def matchTracebackAt (s : List Char) : Bool :=
  "Traceback ".data.isPrefixOf s

/-- Matcher for `LINE \d+:` at a fixed position: the literal `"LINE "`,
one or more digits, then `:`.  Because `:` is not a digit, the greedy
digit run is the only candidate for `\d+`. -/
def matchLINEAt (s : List Char) : Bool :=
  "LINE ".data.isPrefixOf s &&
  !((s.drop 5).takeWhile Char.isDigit).isEmpty &&
  ((s.drop 5).dropWhile Char.isDigit).head? == some ':'

/-- The source's `IsMultiline`: true iff any of the four regexes
matches.  Only the first pattern is anchored (`^\s`); the other three are
unanchored substring searches, exactly as `regexp.Match` behaves on the
patterns in `regexps`. -/
def IsMultiline (message : String) : Bool :=
  startsWithSpace message.data ||
  anySuffix matchLineInAt message.data ||
  anySuffix matchTracebackAt message.data ||
  anySuffix matchLINEAt message.data

/-- Classifier as claim C5 describes it: identical to `IsMultiline`
except that `Traceback ` is only recognised at the beginning of the line.
This second definition follows the claim's words, to be compared with the
one translated from the source. -/
def claimClassify (message : String) : Bool :=
  startsWithSpace message.data ||
  anySuffix matchLineInAt message.data ||
  matchTracebackAt message.data ||
  anySuffix matchLINEAt message.data

/-! Specification-level (propositional) descriptions of the four patterns,
used to state the classifier characterisation independently of the
matcher code. -/

/-- The line begins with a whitespace character. -/
def StartsWithWhitespace (s : String) : Prop :=
  ∃ c rest, s.data = c :: rest ∧ isSpaceGo c = true

/-- The line contains `line <digits>, in ` followed by a non-newline
character (the regex `.+` needs at least one character matched by `.`);
the rest of the line is unconstrained. -/
def LineFramePattern (s : String) : Prop :=
  ∃ pre ds c rest,
    s.data = pre ++ "line ".data ++ ds ++ ", in ".data ++ c :: rest ∧
    ds ≠ [] ∧ (∀ d ∈ ds, d.isDigit = true) ∧ c ≠ '\n'

/-- The line contains `Traceback ` at some position. -/
def ContainsTracebackText (s : String) : Prop :=
  ∃ pre post, s.data = pre ++ "Traceback ".data ++ post

/-- The line contains `LINE <digits>:` at some position. -/
def SQLContextPattern (s : String) : Prop :=
  ∃ pre ds rest,
    s.data = pre ++ "LINE ".data ++ ds ++ ':' :: rest ∧
    ds ≠ [] ∧ (∀ d ∈ ds, d.isDigit = true)

/-! ## Event construction helpers -/

/-- Source `MergeMessages`: join the `message` fields with `\n`. -/
def MergeMessages (messages : List Message) : String :=
  String.intercalate "\n" (messages.map (·.message))

/-- Source `GetTags`: `["multiline"]` when more than one message,
else `[""]`. -/
def GetTags (messages : List Message) : List String :=
  if messages.length > 1 then ["multiline"] else [""]

/-- Go `strings.TrimLeft(name, "/")`: drop every leading `/`. -/
def trimLeftSlash (s : String) : String :=
  ⟨s.data.dropWhile (fun c => c = '/')⟩

/-- Source `GetHostname`.  `envHostname` is `os.Getenv("HOSTNAME")`
(empty both when unset and when set empty, as in Go).  `osHostname` models
the result of `os.Hostname()`: the returned string paired with whether an
error occurred; Go's `os.Hostname` returns the empty string alongside a
non-nil error.  The error is only logged, so only the string component
reaches the result. -/
def GetHostname (envHostname : String) (osHostname : String × Bool) : String :=
  if envHostname = "" then osHostname.1 else envHostname

/-! ## Stream driver -/

/-- The `rawMessage` built at the top of the loop body: only `Message`
is populated. -/
def rawOf (m : RouterMessage) : Message :=
  { message := m.data, name := "", id := "", image := "", hostname := ""
    host := "", stream := "", tags := [] }

/-- Driver state: the per-container queue map (Go map lookup of an absent
key yields the empty slice, so a total function with default `[]` is the
faithful model) plus the events emitted so far, in order. -/
structure StreamState where
  queue : String → List Message
  events : List Message

/-- The empty initial state of `Stream`. -/
def initState : StreamState :=
  { queue := fun _ => [], events := [] }

/-- Lines 132-134: the buffer to be flushed, with the triggering record's
line appended exactly when the pre-flush buffer holds more than one line. -/
def flushedList (messages : List Message) (m : RouterMessage) : List Message :=
  if messages.length > 1 then messages ++ [rawOf m] else messages

/-- Lines 136-145: the `finalMessage` built at flush time from the flushed
buffer and the triggering record. -/
def flushEvent (hostname : String) (m : RouterMessage)
    (messages : List Message) : Message :=
  { message := MergeMessages messages
    name := trimLeftSlash m.container.name
    id := m.container.id
    image := m.container.config.image
    hostname := m.container.config.hostname
    stream := m.source
    tags := GetTags messages
    host := hostname }

/-- Lines 147-151: the buffer left behind after a flush.  The Go condition
`len(messages) == 1 && !IsMultiline(messages[0].Message)` (on the flushed
list, with short-circuit indexing) is rendered as a match on the flushed
list. -/
def postBuffer (messages : List Message) (m : RouterMessage) : List Message :=
  match messages with
  | [only] => if IsMultiline only.message then [] else [rawOf m]
  | _ => []

/-- One iteration of the `Stream` loop body on record `m`, from
src/logstash.go lines 106-169.  Go's map read of an absent key yields the
empty slice, so the `existing` bookkeeping of lines 112-117 is the
identity here.  JSON marshalling of `Message` cannot fail and write
errors are logged and skipped without touching the queue, so emission is
modelled as appending the built `finalMessage` to `events`. -/
def streamStep (hostname : String) (st : StreamState) (m : RouterMessage) :
    StreamState :=
  let rawMessage := rawOf m
  let messages := st.queue m.container.id
  if IsMultiline m.data then
    { st with queue := fun k =>
        if k = m.container.id then messages ++ [rawMessage] else st.queue k }
  else
    if (st.queue m.container.id).length = 0 then
      { st with queue := fun k =>
          if k = m.container.id then messages ++ [rawMessage] else st.queue k }
    else
      { queue := fun k =>
          if k = m.container.id then postBuffer (flushedList messages m) m
          else st.queue k
        events := st.events ++ [flushEvent hostname m (flushedList messages m)] }

/-- The whole `Stream` run on a finite record sequence: the hostname is
computed once before the loop and the loop body folds over the records. -/
def streamRun (hostname : String) (records : List RouterMessage) : StreamState :=
  records.foldl (streamStep hostname) initState

/-! ## Trace projections and coalescing predicates -/

/-- The sequence of `message` values emitted for container id `c`, in
emission order. -/
def eventsFor (c : String) (events : List Message) : List String :=
  (events.filter (fun e => e.id == c)).map (·.message)

/-- The sequence of `data` values received for container id `c`, in
arrival order. -/
def receivedFor (c : String) (records : List RouterMessage) : List String :=
  (records.filter (fun m => m.container.id == c)).map (·.data)

/-- Claim C4's property: `msgs` is a partition, in order, of `lines` —
every line belongs to exactly one group, groups are non-empty and
consecutive, and each message is its group joined with newlines. -/
def isPartitionOf (msgs lines : List String) : Prop :=
  ∃ groups : List (List String),
    groups.flatten = lines ∧ (∀ g ∈ groups, g ≠ []) ∧
    msgs = groups.map (String.intercalate "\n")

/-- Recursive form of joining a list of strings with newlines; proved
equal to `String.intercalate "\n"` below and used in reasoning. -/
def joinLines : List String → String
  | [] => ""
  | [x] => x
  | x :: xs => x ++ "\n" ++ joinLines xs

/-- The invariant maintained by the stream driver: per container, the
emitted messages are newline-joins of non-empty groups of received lines,
and those groups followed by the pending buffer form an in-order
subsequence of the received lines. -/
def driverInv (processed : List RouterMessage) (st : StreamState) : Prop :=
  ∀ c, ∃ groups : List (List String),
    (∀ g ∈ groups, g ≠ []) ∧
    eventsFor c st.events = groups.map (String.intercalate "\n") ∧
    (groups.flatten ++ (st.queue c).map (·.message)).Sublist (receivedFor c processed)

/-! ## Concrete inputs used by witnesses and counterexamples -/

/-- A record with fixed metadata, for concrete runs. -/
def sampleRecord (id name data : String) : RouterMessage :=
  { data := data, source := "stdout",
    container := { id := id, name := name,
                   config := { image := "img", hostname := "ch" } } }

/-- The record sequence refuting claim C4: the first line is a lone
buffered continuation, so the second line is discarded by the flush it
triggers, and the emitted messages skip it. -/
def discardRunRecords : List RouterMessage :=
  [sampleRecord "c" "/n" "  x", sampleRecord "c" "/n" "a",
   sampleRecord "c" "/n" "b", sampleRecord "c" "/n" "d"]

/-- A buffer of two lines under container `a`, as left by a head line
followed by one continuation line. -/
def bufferedTwo : List Message :=
  [rawOf (sampleRecord "a" "/n" "l1"), rawOf (sampleRecord "a" "/n" "  l2")]

/-- Driver state whose container `a` holds `bufferedTwo`. -/
def stateTwo : StreamState :=
  { queue := fun k => if k = "a" then bufferedTwo else [], events := [] }

/-- A buffer with a single buffered non-continuation line. -/
def bufferedOne : List Message :=
  [rawOf (sampleRecord "a" "/n" "solo")]

/-- Driver state whose container `a` holds `bufferedOne`. -/
def stateOne : StreamState :=
  { queue := fun k => if k = "a" then bufferedOne else [], events := [] }

/-- Driver state whose container `a` holds a single buffered line that
the classifier deems a continuation. -/
def stateCont : StreamState :=
  { queue := fun k => if k = "a" then [rawOf (sampleRecord "a" "/n" "  cont")]
      else [], events := [] }


/-! ## Adapter factory -/

structure Route where
  address : String
  transport : String
  adapter : String
  options : List (String × String)
deriving DecidableEq

/-- Modelled from the spec: `route.AdapterTransport(default)` lives in the
external logspout router package; per the spec it yields the route's
transport name, defaulting (to the argument, `"udp"` at the call site)
when none is configured. -/
def Route.adapterTransportDefault (r : Route) (d : String) : String :=
  if r.transport = "" then d else r.transport

structure Adapter (γ : Type) where
  conn : γ
  route : Route
deriving DecidableEq

/-- The two error shapes `NewAdapter` can return: a fresh message built
with `errors.New`, or the dial error passed through verbatim. -/
inductive AdapterError (ε : Type) where
  | new (s : String)
  | dial (e : ε)
deriving DecidableEq

/-- Source `NewAdapter`, with the external transport registry
(`router.AdapterTransports.Lookup`) and the transport's `Dial` abstracted
as function parameters. -/
def NewAdapter {τ γ ε : Type} (lookup : String → Option τ)
    (dial : τ → String → List (String × String) → Except ε γ)
    (route : Route) : Except (AdapterError ε) (Adapter γ) :=
  match lookup (route.adapterTransportDefault "udp") with
  | none => .error (.new ("unable to find adapter: " ++ route.adapter))
  | some transport =>
    match dial transport route.address route.options with
    | .error e => .error (.dial e)
    | .ok conn => .ok { conn := conn, route := route }

/-- A route whose transport option is empty, used with abstract
lookup/dial functions. -/
def unitRoute : Route :=
  { address := "addr", transport := "", adapter := "logstash", options := [] }

/-! ## Helper lemmas: newline joining -/

lemma joinLines_cons_append (x y : String) (as : List String) :
    joinLines ((x ++ y) :: as) = x ++ joinLines (y :: as) := by
  cases as with
  | nil => rfl
  | cons a as => simp [joinLines, String.append_assoc]

lemma intercalate_go_eq (as : List String) :
    ∀ acc, String.intercalate.go acc "\n" as = joinLines (acc :: as) := by
  induction as with
  | nil => intro acc; rfl
  | cons a as ih =>
    intro acc
    show String.intercalate.go (acc ++ "\n" ++ a) "\n" as = _
    rw [ih (acc ++ "\n" ++ a)]
    rw [show acc ++ "\n" ++ a = (acc ++ "\n") ++ a from rfl,
      joinLines_cons_append (acc ++ "\n") a as]
    cases as with
    | nil => rfl
    | cons b bs => simp [joinLines, String.append_assoc]

lemma intercalate_eq_joinLines (l : List String) :
    String.intercalate "\n" l = joinLines l := by
  cases l with
  | nil => rfl
  | cons a as => exact intercalate_go_eq as a

lemma joinLines_append (l₁ l₂ : List String) (h₁ : l₁ ≠ []) (h₂ : l₂ ≠ []) :
    joinLines (l₁ ++ l₂) = joinLines l₁ ++ "\n" ++ joinLines l₂ := by
  induction l₁ with
  | nil => exact absurd rfl h₁
  | cons x xs ih =>
    cases xs with
    | nil =>
      cases l₂ with
      | nil => exact absurd rfl h₂
      | cons b bs => simp [joinLines]
    | cons y ys =>
      have := ih (by simp)
      simp only [List.cons_append] at this ⊢
      rw [show joinLines (x :: y :: (ys ++ l₂)) =
            x ++ "\n" ++ joinLines (y :: (ys ++ l₂)) from rfl]
      rw [show joinLines (x :: y :: ys) = x ++ "\n" ++ joinLines (y :: ys) from rfl]
      rw [this]
      simp [String.append_assoc]

lemma flatten_ne_nil {gs : List (List String)} (hgs : gs ≠ [])
    (h : ∀ g ∈ gs, g ≠ []) : gs.flatten ≠ [] := by
  cases gs with
  | nil => exact absurd rfl hgs
  | cons g gs =>
    rw [List.flatten_cons]
    exact List.append_ne_nil_of_left_ne_nil (h g (by simp)) _

lemma joinLines_flatten (gs : List (List String)) (h : ∀ g ∈ gs, g ≠ []) :
    joinLines (gs.map joinLines) = joinLines gs.flatten := by
  induction gs with
  | nil => rfl
  | cons g gs ih =>
    by_cases hgs : gs = []
    · subst hgs; simp [joinLines]
    · have hg : g ≠ [] := h g (by simp)
      have hrest : ∀ g' ∈ gs, g' ≠ [] := fun g' hm => h g' (by simp [hm])
      have hmapne : gs.map joinLines ≠ [] := by
        cases gs with
        | nil => exact absurd rfl hgs
        | cons a as => simp
      rw [List.map_cons, List.flatten_cons,
        show (joinLines g :: gs.map joinLines) = [joinLines g] ++ gs.map joinLines
          from rfl,
        joinLines_append [joinLines g] (gs.map joinLines) (by simp) hmapne,
        ih hrest,
        joinLines_append g gs.flatten hg (flatten_ne_nil hgs hrest)]
      rfl

lemma mergeMessages_singleton (b : Message) : MergeMessages [b] = b.message := by
  simp [MergeMessages, intercalate_eq_joinLines, joinLines]

/-! ## Helper lemmas: the three cases of the loop body -/

lemma streamStep_cont (hostname : String) (st : StreamState) (m : RouterMessage)
    (h : IsMultiline m.data = true) :
    streamStep hostname st m =
      { st with queue := fun k =>
          if k = m.container.id then st.queue m.container.id ++ [rawOf m]
          else st.queue k } := by
  simp [streamStep, h]

lemma streamStep_seed (hostname : String) (st : StreamState) (m : RouterMessage)
    (h1 : IsMultiline m.data = false) (h2 : st.queue m.container.id = []) :
    streamStep hostname st m =
      { st with queue := fun k =>
          if k = m.container.id then [rawOf m] else st.queue k } := by
  simp [streamStep, h1, h2]

lemma streamStep_flush (hostname : String) (st : StreamState) (m : RouterMessage)
    (h1 : IsMultiline m.data = false) (h2 : st.queue m.container.id ≠ []) :
    streamStep hostname st m =
      { queue := fun k =>
          if k = m.container.id then
            postBuffer (flushedList (st.queue m.container.id) m) m
          else st.queue k
        events := st.events ++
          [flushEvent hostname m (flushedList (st.queue m.container.id) m)] } := by
  simp [streamStep, h1, List.length_eq_zero, h2]

/-! ## Helper lemmas: matcher correctness -/

lemma head?_dropWhile_not {α : Type} (p : α → Bool) (l : List α) :
    ∀ c, (l.dropWhile p).head? = some c → p c = false := by
  induction l with
  | nil => intro c h; simp [List.dropWhile] at h
  | cons a as ih =>
    intro c h
    rw [List.dropWhile_cons] at h
    by_cases hp : p a = true
    · rw [if_pos hp] at h; exact ih c h
    · rw [if_neg hp] at h
      simp at h
      rw [← h]
      exact Bool.eq_false_iff.mpr hp

lemma takeWhile_dropWhile_all_append {α : Type} (p : α → Bool) (l₁ : List α)
    (a : α) (l₂ : List α) (h1 : ∀ x ∈ l₁, p x = true) (h2 : p a = false) :
    (l₁ ++ a :: l₂).takeWhile p = l₁ ∧ (l₁ ++ a :: l₂).dropWhile p = a :: l₂ := by
  induction l₁ with
  | nil => simp [List.takeWhile_cons, List.dropWhile_cons, h2]
  | cons x xs ih =>
    have hx : p x = true := h1 x (by simp)
    have hrec := ih (fun y hy => h1 y (by simp [hy]))
    simp [List.takeWhile_cons, List.dropWhile_cons, hx, hrec.1, hrec.2]

lemma anySuffix_iff (p : List Char → Bool) (l : List Char) :
    anySuffix p l = true ↔ ∃ pre post, l = pre ++ post ∧ p post = true := by
  induction l with
  | nil =>
    simp only [anySuffix]
    constructor
    · intro h; exact ⟨[], [], rfl, h⟩
    · rintro ⟨pre, post, heq, hp⟩
      obtain ⟨-, rfl⟩ := List.append_eq_nil.mp heq.symm
      exact hp
  | cons c cs ih =>
    simp only [anySuffix, Bool.or_eq_true, ih]
    constructor
    · rintro (h | ⟨pre, post, rfl, hp⟩)
      · exact ⟨[], c :: cs, rfl, h⟩
      · exact ⟨c :: pre, post, rfl, hp⟩
    · rintro ⟨pre, post, heq, hp⟩
      cases pre with
      | nil =>
        left
        simp only [List.nil_append] at heq
        rw [heq]; exact hp
      | cons d pre' =>
        right
        simp only [List.cons_append, List.cons.injEq] at heq
        exact ⟨pre', post, heq.2, hp⟩

lemma nonNewlineHead_iff (l : List Char) :
    nonNewlineHead l = true ↔ ∃ c rest, l = c :: rest ∧ c ≠ '\n' := by
  cases l with
  | nil => simp [nonNewlineHead]
  | cons c cs => simp [nonNewlineHead]

lemma startsWithSpace_iff (l : List Char) :
    startsWithSpace l = true ↔ ∃ c rest, l = c :: rest ∧ isSpaceGo c = true := by
  cases l with
  | nil => simp [startsWithSpace]
  | cons c cs => simp [startsWithSpace]

lemma matchTracebackAt_iff (t : List Char) :
    matchTracebackAt t = true ↔ ∃ post, t = "Traceback ".data ++ post := by
  rw [matchTracebackAt, List.isPrefixOf_iff_prefix]
  constructor
  · rintro ⟨post, rfl⟩; exact ⟨post, rfl⟩
  · rintro ⟨post, rfl⟩; exact ⟨post, rfl⟩

lemma matchLineInAt_iff (t : List Char) :
    matchLineInAt t = true ↔
      ∃ ds c rest, t = "line ".data ++ ds ++ ", in ".data ++ c :: rest ∧
        ds ≠ [] ∧ (∀ d ∈ ds, d.isDigit = true) ∧ c ≠ '\n' := by
  constructor
  · intro h
    simp only [matchLineInAt, Bool.and_eq_true] at h
    obtain ⟨⟨⟨hpre, hds⟩, hin⟩, hnl⟩ := h
    obtain ⟨u, hu⟩ := List.isPrefixOf_iff_prefix.mp hpre
    have hdrop : t.drop 5 = u := by
      rw [← hu, show (5 : Nat) = "line ".data.length from rfl, List.drop_left]
    rw [hdrop] at hds hin hnl
    obtain ⟨v, hv⟩ := List.isPrefixOf_iff_prefix.mp hin
    have hdrop2 : (u.dropWhile Char.isDigit).drop 5 = v := by
      rw [← hv, show (5 : Nat) = ", in ".data.length from rfl, List.drop_left]
    rw [hdrop2] at hnl
    obtain ⟨c, rest, rfl, hc⟩ := (nonNewlineHead_iff v).mp hnl
    refine ⟨u.takeWhile Char.isDigit, c, rest, ?_, ?_, ?_, hc⟩
    · rw [← hu]
      conv_lhs => rw [← List.takeWhile_append_dropWhile (p := Char.isDigit) (l := u),
        ← hv]
      simp [List.append_assoc]
    · intro hnil; rw [hnil] at hds; simp at hds
    · intro d hd; exact List.mem_takeWhile_imp hd
  · rintro ⟨ds, c, rest, rfl, hne, hdig, hc⟩
    have hcomma : (", in ".data : List Char) ++ c :: rest =
        ',' :: (" in ".data ++ c :: rest) := rfl
    have hsplit := takeWhile_dropWhile_all_append Char.isDigit ds ','
      (" in ".data ++ c :: rest) hdig (by decide)
    simp only [matchLineInAt, Bool.and_eq_true]
    have hdrop : ("line ".data ++ ds ++ ", in ".data ++ c :: rest).drop 5 =
        ds ++ ", in ".data ++ c :: rest := by
      rw [List.append_assoc, List.append_assoc,
        show (5 : Nat) = "line ".data.length from rfl, List.drop_left,
        ← List.append_assoc]
    refine ⟨⟨⟨?_, ?_⟩, ?_⟩, ?_⟩
    · exact List.isPrefixOf_iff_prefix.mpr
        ⟨ds ++ ", in ".data ++ c :: rest, by simp [List.append_assoc]⟩
    · rw [hdrop, List.append_assoc, hcomma, hsplit.1]
      simpa using hne
    · rw [hdrop, List.append_assoc, hcomma, hsplit.2, ← hcomma]
      exact List.isPrefixOf_iff_prefix.mpr ⟨c :: rest, rfl⟩
    · rw [hdrop, List.append_assoc, hcomma, hsplit.2, ← hcomma,
        show (5 : Nat) = ", in ".data.length from rfl, List.drop_left]
      simp [nonNewlineHead, hc]

lemma matchLINEAt_iff (t : List Char) :
    matchLINEAt t = true ↔
      ∃ ds rest, t = "LINE ".data ++ ds ++ ':' :: rest ∧
        ds ≠ [] ∧ (∀ d ∈ ds, d.isDigit = true) := by
  constructor
  · intro h
    simp only [matchLINEAt, Bool.and_eq_true] at h
    obtain ⟨⟨hpre, hds⟩, hcol⟩ := h
    obtain ⟨u, hu⟩ := List.isPrefixOf_iff_prefix.mp hpre
    have hdrop : t.drop 5 = u := by
      rw [← hu, show (5 : Nat) = "LINE ".data.length from rfl, List.drop_left]
    rw [hdrop] at hds hcol
    have hcol' : (u.dropWhile Char.isDigit).head? = some ':' := by
      simpa using hcol
    obtain ⟨rest, hrest⟩ : ∃ rest, u.dropWhile Char.isDigit = ':' :: rest := by
      cases hu2 : u.dropWhile Char.isDigit with
      | nil => rw [hu2] at hcol'; simp at hcol'
      | cons a as =>
        rw [hu2] at hcol'; simp at hcol'
        exact ⟨as, by rw [hcol']⟩
    refine ⟨u.takeWhile Char.isDigit, rest, ?_, ?_, ?_⟩
    · rw [← hu]
      conv_lhs => rw [← List.takeWhile_append_dropWhile (p := Char.isDigit) (l := u)]
      rw [hrest, List.append_assoc]
    · intro hnil; rw [hnil] at hds; simp at hds
    · intro d hd; exact List.mem_takeWhile_imp hd
  · rintro ⟨ds, rest, rfl, hne, hdig⟩
    have hsplit := takeWhile_dropWhile_all_append Char.isDigit ds ':' rest
      hdig (by decide)
    simp only [matchLINEAt, Bool.and_eq_true]
    have hdrop : ("LINE ".data ++ ds ++ ':' :: rest).drop 5 = ds ++ ':' :: rest := by
      rw [List.append_assoc, show (5 : Nat) = "LINE ".data.length from rfl,
        List.drop_left]
    refine ⟨⟨?_, ?_⟩, ?_⟩
    · exact List.isPrefixOf_iff_prefix.mpr
        ⟨ds ++ ':' :: rest, by simp [List.append_assoc]⟩
    · rw [hdrop, hsplit.1]; simpa using hne
    · rw [hdrop, hsplit.2]; simp

/-! ## Helper lemmas: per-container traces and the driver invariant -/

lemma eventsFor_append (c : String) (evs₁ evs₂ : List Message) :
    eventsFor c (evs₁ ++ evs₂) = eventsFor c evs₁ ++ eventsFor c evs₂ := by
  simp [eventsFor, List.filter_append]

lemma eventsFor_flush (c : String) (hostname : String) (m : RouterMessage)
    (msgs : List Message) (hc : m.container.id = c) :
    eventsFor c [flushEvent hostname m msgs] = [MergeMessages msgs] := by
  simp [eventsFor, flushEvent, List.filter, hc]

lemma eventsFor_flush_other (c : String) (hostname : String) (m : RouterMessage)
    (msgs : List Message) (hc : m.container.id ≠ c) :
    eventsFor c [flushEvent hostname m msgs] = [] := by
  have : (m.container.id == c) = false := beq_eq_false_iff_ne.mpr hc
  simp [eventsFor, flushEvent, List.filter, this]

lemma receivedFor_append (c : String) (records : List RouterMessage)
    (m : RouterMessage) :
    receivedFor c (records ++ [m]) =
      receivedFor c records ++ (if m.container.id = c then [m.data] else []) := by
  simp only [receivedFor, List.filter_append, List.map_append]
  congr 1
  by_cases hc : m.container.id = c
  · have : (m.container.id == c) = true := beq_iff_eq.mpr hc
    simp [List.filter, this, hc]
  · have : (m.container.id == c) = false := beq_eq_false_iff_ne.mpr hc
    simp [List.filter, this, hc]

lemma streamStep_queue_other (hostname : String) (st : StreamState)
    (m : RouterMessage) (c : String) (hc : ¬ c = m.container.id) :
    (streamStep hostname st m).queue c = st.queue c := by
  cases hm : IsMultiline m.data with
  | true => rw [streamStep_cont hostname st m hm]; simp [hc]
  | false =>
    by_cases hq : st.queue m.container.id = []
    · rw [streamStep_seed hostname st m hm hq]; simp [hc]
    · rw [streamStep_flush hostname st m hm hq]; simp [hc]

lemma streamStep_events_other (hostname : String) (st : StreamState)
    (m : RouterMessage) (c : String) (hc : ¬ c = m.container.id) :
    eventsFor c (streamStep hostname st m).events = eventsFor c st.events := by
  cases hm : IsMultiline m.data with
  | true => rw [streamStep_cont hostname st m hm]
  | false =>
    by_cases hq : st.queue m.container.id = []
    · rw [streamStep_seed hostname st m hm hq]
    · rw [streamStep_flush hostname st m hm hq]
      show eventsFor c (st.events ++ _) = _
      rw [eventsFor_append,
        eventsFor_flush_other c hostname m _ (fun h => hc h.symm)]
      simp

lemma driverInv_init : driverInv [] initState := by
  intro c
  exact ⟨[], by simp, by simp [eventsFor, initState],
    by simp [receivedFor, initState]⟩

lemma driverInv_step (hostname : String) (processed : List RouterMessage)
    (st : StreamState) (m : RouterMessage) (h : driverInv processed st) :
    driverInv (processed ++ [m]) (streamStep hostname st m) := by
  intro c
  obtain ⟨groups, hne, hev, hsub⟩ := h c
  rw [receivedFor_append]
  by_cases hc : m.container.id = c
  case neg =>
    rw [if_neg hc]
    refine ⟨groups, hne, ?_, ?_⟩
    · rw [streamStep_events_other hostname st m c (fun h => hc h.symm)]
      exact hev
    · rw [streamStep_queue_other hostname st m c (fun h => hc h.symm)]
      simpa using hsub
  case pos =>
    subst hc
    rw [if_pos rfl]
    cases hm : IsMultiline m.data with
    | true =>
      rw [streamStep_cont hostname st m hm]
      refine ⟨groups, hne, hev, ?_⟩
      show (groups.flatten ++
        (if m.container.id = m.container.id then
          st.queue m.container.id ++ [rawOf m] else _).map (·.message)).Sublist _
      rw [if_pos rfl, List.map_append, ← List.append_assoc]
      exact List.Sublist.append hsub (by simp [rawOf])
    | false =>
      by_cases hq : st.queue m.container.id = []
      · rw [streamStep_seed hostname st m hm hq]
        refine ⟨groups, hne, hev, ?_⟩
        show (groups.flatten ++
          (if m.container.id = m.container.id then [rawOf m]
            else _).map (·.message)).Sublist _
        rw [if_pos rfl]
        rw [hq] at hsub; simp only [List.map_nil, List.append_nil] at hsub
        exact List.Sublist.append hsub (by simp [rawOf])
      · rw [streamStep_flush hostname st m hm hq]
        refine ⟨groups ++ [(flushedList (st.queue m.container.id) m).map (·.message)],
          ?_, ?_, ?_⟩
        · intro g hg
          rcases List.mem_append.mp hg with hg | hg
          · exact hne g hg
          · rw [List.mem_singleton.mp hg]
            have : flushedList (st.queue m.container.id) m ≠ [] := by
              rw [flushedList]
              split
              · exact List.append_ne_nil_of_left_ne_nil hq _
              · exact hq
            simpa using this
        · show eventsFor _ (st.events ++ _) = _
          rw [eventsFor_append, eventsFor_flush _ hostname m _ rfl, hev,
            List.map_append]
          rfl
        · show (_ ++ (if m.container.id = m.container.id then
            postBuffer (flushedList (st.queue m.container.id) m) m
            else _).map (·.message)).Sublist _
          rw [if_pos rfl, List.flatten_append]
          rcases hbuf : st.queue m.container.id with _ | ⟨b, _ | ⟨b', bs⟩⟩
          · exact absurd hbuf hq
          · rw [flushedList]
            simp only [hbuf, List.length_cons, List.length_nil]
            rw [if_neg (by omega)]
            rw [postBuffer]
            by_cases hml : IsMultiline b.message = true
            · rw [if_pos hml]
              simp only [List.flatten_cons, List.flatten_nil, List.map_nil,
                List.append_nil]
              rw [hbuf] at hsub
              refine List.Sublist.trans ?_ (List.sublist_append_left _ _)
              simpa using hsub
            · rw [if_neg hml]
              rw [hbuf] at hsub
              have := List.Sublist.append hsub
                (List.Sublist.refl [(rawOf m).message])
              simpa [rawOf, List.append_assoc] using this
          · rw [flushedList]
            simp only [hbuf, List.length_cons]
            rw [if_pos (by omega)]
            have hpost : postBuffer ((b :: b' :: bs) ++ [rawOf m]) m = [] := rfl
            rw [hpost]
            simp only [List.map_nil, List.append_nil, List.map_append,
              List.flatten_cons, List.flatten_nil, List.append_nil]
            rw [hbuf] at hsub
            have := List.Sublist.append hsub
              (List.Sublist.refl [(rawOf m).message])
            simpa [rawOf, List.append_assoc] using this

lemma driverInv_run (hostname : String) :
    ∀ (records : List RouterMessage) (st : StreamState)
      (processed : List RouterMessage), driverInv processed st →
      driverInv (processed ++ records) (records.foldl (streamStep hostname) st) := by
  intro records
  induction records with
  | nil => intro st processed h; simpa using h
  | cons m rs ih =>
    intro st processed h
    have h1 := driverInv_step hostname processed st m h
    have h2 := ih (streamStep hostname st m) (processed ++ [m]) h1
    simpa [List.append_assoc] using h2

lemma driverInv_streamRun (hostname : String) (records : List RouterMessage) :
    driverInv records (streamRun hostname records) := by
  have := driverInv_run hostname records initState [] driverInv_init
  simpa [streamRun] using this

lemma foldl_host (hostname : String) :
    ∀ (records : List RouterMessage) (st : StreamState),
      (∀ ev ∈ st.events, ev.host = hostname) →
      ∀ ev ∈ (records.foldl (streamStep hostname) st).events, ev.host = hostname := by
  intro records
  induction records with
  | nil => intro st h; simpa using h
  | cons m rs ih =>
    intro st h
    apply ih
    intro ev hev
    cases hm : IsMultiline m.data with
    | true =>
      rw [streamStep_cont hostname st m hm] at hev
      exact h ev hev
    | false =>
      by_cases hq : st.queue m.container.id = []
      · rw [streamStep_seed hostname st m hm hq] at hev
        exact h ev hev
      · rw [streamStep_flush hostname st m hm hq] at hev
        rcases List.mem_append.mp hev with hev | hev
        · exact h ev hev
        · rw [List.mem_singleton.mp hev]; rfl

lemma streamRun_host (hostname : String) (records : List RouterMessage) :
    ∀ ev ∈ (streamRun hostname records).events, ev.host = hostname :=
  foldl_host hostname records initState (by simp [initState])

/-! ## Claim theorems -/

/-- C1: one loop iteration emits an event for the record's container
exactly when the classifier returns false on the line and the container's
buffer is non-empty; a continuation line is appended to the buffer with
no emission, and a non-continuation line arriving on an empty buffer
seeds the buffer with no emission. -/
theorem stream_emission_iff_flush (hostname : String) (st : StreamState)
    (m : RouterMessage) :
    ((∃ ev, (streamStep hostname st m).events = st.events ++ [ev] ∧
        ev.id = m.container.id) ↔
      IsMultiline m.data = false ∧ st.queue m.container.id ≠ []) ∧
    (IsMultiline m.data = true →
      (streamStep hostname st m).events = st.events ∧
      (streamStep hostname st m).queue m.container.id =
        st.queue m.container.id ++ [rawOf m]) ∧
    (IsMultiline m.data = false → st.queue m.container.id = [] →
      (streamStep hostname st m).events = st.events ∧
      (streamStep hostname st m).queue m.container.id = [rawOf m]) := by
  refine ⟨⟨?_, ?_⟩, ?_, ?_⟩
  · rintro ⟨ev, hev, -⟩
    cases hm : IsMultiline m.data with
    | true =>
      rw [streamStep_cont hostname st m hm] at hev
      simp at hev
    | false =>
      by_cases hq : st.queue m.container.id = []
      · rw [streamStep_seed hostname st m hm hq] at hev
        simp at hev
      · exact ⟨rfl, hq⟩
  · rintro ⟨hm, hq⟩
    rw [streamStep_flush hostname st m hm hq]
    exact ⟨_, rfl, rfl⟩
  · intro hm
    rw [streamStep_cont hostname st m hm]
    exact ⟨rfl, by simp⟩
  · intro hm hq
    rw [streamStep_seed hostname st m hm hq]
    exact ⟨rfl, by simp⟩

theorem stream_emission_iff_flush_witness :
    (streamStep "H" initState (sampleRecord "a" "/svc" "hello")).events =
      initState.events ∧
    (streamStep "H" initState (sampleRecord "a" "/svc" "hello")).queue
        (sampleRecord "a" "/svc" "hello").container.id =
      [rawOf (sampleRecord "a" "/svc" "hello")] :=
  (stream_emission_iff_flush "H" initState (sampleRecord "a" "/svc" "hello")).2.2
    (by decide) (by decide)

/-- C10: when exactly one line classified as a continuation is buffered
and a non-continuation line arrives, the emitted message is exactly the
buffered line, the container's buffer is cleared, and the arriving line
is kept nowhere: the post-step state carries no trace of it. -/
theorem lone_continuation_flush_discard (hostname : String) (st : StreamState)
    (m : RouterMessage) (b : Message)
    (h1 : IsMultiline m.data = false)
    (h2 : st.queue m.container.id = [b])
    (h3 : IsMultiline b.message = true) :
    ∃ ev, (streamStep hostname st m).events = st.events ++ [ev] ∧
      ev.message = b.message ∧
      (streamStep hostname st m).queue =
        fun k => if k = m.container.id then [] else st.queue k := by
  rw [streamStep_flush hostname st m h1 (by rw [h2]; simp)]
  refine ⟨_, rfl, ?_, ?_⟩
  · show MergeMessages (flushedList (st.queue m.container.id) m) = b.message
    rw [h2, flushedList]
    simp only [List.length_cons, List.length_nil]
    rw [if_neg (by omega)]
    exact mergeMessages_singleton b
  · funext k
    show (if k = m.container.id then
        postBuffer (flushedList (st.queue m.container.id) m) m
      else st.queue k) = (if k = m.container.id then [] else st.queue k)
    by_cases hk : k = m.container.id
    · rw [if_pos hk, if_pos hk, h2, flushedList]
      simp only [List.length_cons, List.length_nil]
      rw [if_neg (by omega), postBuffer, if_pos h3]
    · rw [if_neg hk, if_neg hk]

theorem lone_continuation_flush_discard_witness :
    ∃ ev, (streamStep "H" stateCont (sampleRecord "a" "/n" "trigger")).events =
        stateCont.events ++ [ev] ∧
      ev.message = (rawOf (sampleRecord "a" "/n" "  cont")).message ∧
      (streamStep "H" stateCont (sampleRecord "a" "/n" "trigger")).queue =
        fun k => if k = (sampleRecord "a" "/n" "trigger").container.id then []
          else stateCont.queue k :=
  lone_continuation_flush_discard "H" stateCont (sampleRecord "a" "/n" "trigger")
    (rawOf (sampleRecord "a" "/n" "  cont")) (by decide) (by decide) (by decide)

/-- C2: at a flush, the arriving non-continuation line is appended to the
buffer (hence included in the emitted message) exactly when the pre-flush
buffer holds more than one line; with exactly one buffered line the
emitted message is only that buffered line. -/
theorem flush_trigger_line_inclusion (hostname : String) (st : StreamState)
    (m : RouterMessage) (msgs : List Message)
    (h1 : IsMultiline m.data = false)
    (h2 : st.queue m.container.id = msgs) (h3 : msgs ≠ []) :
    ∃ ev, (streamStep hostname st m).events = st.events ++ [ev] ∧
      (flushedList msgs m = msgs ++ [rawOf m] ↔ 1 < msgs.length) ∧
      ev.message = MergeMessages (flushedList msgs m) ∧
      (∀ b, msgs = [b] → ev.message = b.message) := by
  rw [streamStep_flush hostname st m h1 (by rw [h2]; exact h3), h2]
  refine ⟨_, rfl, ⟨?_, ?_⟩, rfl, ?_⟩
  · intro hfl
    by_contra hlen
    rw [flushedList, if_neg hlen] at hfl
    have := congrArg List.length hfl
    simp at this
  · intro hlen
    rw [flushedList, if_pos hlen]
  · rintro b rfl
    show MergeMessages (flushedList [b] m) = b.message
    rw [flushedList]
    simp only [List.length_cons, List.length_nil]
    rw [if_neg (by omega)]
    exact mergeMessages_singleton b

theorem flush_trigger_line_inclusion_witness :
    ∃ ev, (streamStep "H" stateTwo (sampleRecord "a" "/n" "next")).events =
        stateTwo.events ++ [ev] ∧
      (flushedList bufferedTwo (sampleRecord "a" "/n" "next") =
          bufferedTwo ++ [rawOf (sampleRecord "a" "/n" "next")] ↔
        1 < bufferedTwo.length) ∧
      ev.message =
        MergeMessages (flushedList bufferedTwo (sampleRecord "a" "/n" "next")) ∧
      (∀ b, bufferedTwo = [b] → ev.message = b.message) :=
  flush_trigger_line_inclusion "H" stateTwo (sampleRecord "a" "/n" "next")
    bufferedTwo (by decide) (by decide) (by decide)

/-- C3: after a flush, the container's buffer is the single arriving line
exactly when the pre-flush buffer had one line that was not a
continuation; in every other flush case the new buffer is empty. -/
theorem flush_post_buffer_law (hostname : String) (st : StreamState)
    (m : RouterMessage) (msgs : List Message)
    (h1 : IsMultiline m.data = false)
    (h2 : st.queue m.container.id = msgs) (h3 : msgs ≠ []) :
    ((∃ b, msgs = [b] ∧ IsMultiline b.message = false) →
      (streamStep hostname st m).queue m.container.id = [rawOf m]) ∧
    (¬ (∃ b, msgs = [b] ∧ IsMultiline b.message = false) →
      (streamStep hostname st m).queue m.container.id = []) := by
  rw [streamStep_flush hostname st m h1 (by rw [h2]; exact h3)]
  constructor
  · rintro ⟨b, rfl, hb⟩
    show (if m.container.id = m.container.id then
        postBuffer (flushedList (st.queue m.container.id) m) m
      else st.queue m.container.id) = _
    rw [if_pos rfl, h2, flushedList]
    simp only [List.length_cons, List.length_nil]
    rw [if_neg (by omega), postBuffer, if_neg (by rw [hb]; simp)]
  · intro hno
    show (if m.container.id = m.container.id then
        postBuffer (flushedList (st.queue m.container.id) m) m
      else st.queue m.container.id) = _
    rw [if_pos rfl, h2]
    rcases msgs with _ | ⟨a, _ | ⟨b, rest⟩⟩
    · exact absurd rfl h3
    · rw [flushedList]
      simp only [List.length_cons, List.length_nil]
      rw [if_neg (by omega), postBuffer]
      have ha : IsMultiline a.message = true := by
        by_contra hfalse
        exact hno ⟨a, rfl, by simpa using hfalse⟩
      rw [if_pos ha]
    · rw [flushedList]
      simp only [List.length_cons]
      rw [if_pos (by omega)]
      rfl

theorem flush_post_buffer_law_witness :
    ((∃ b, bufferedOne = [b] ∧ IsMultiline b.message = false) →
      (streamStep "H" stateOne (sampleRecord "a" "/n" "next2")).queue
        (sampleRecord "a" "/n" "next2").container.id =
        [rawOf (sampleRecord "a" "/n" "next2")]) ∧
    (¬ (∃ b, bufferedOne = [b] ∧ IsMultiline b.message = false) →
      (streamStep "H" stateOne (sampleRecord "a" "/n" "next2")).queue
        (sampleRecord "a" "/n" "next2").container.id = []) :=
  flush_post_buffer_law "H" stateOne (sampleRecord "a" "/n" "next2")
    bufferedOne (by decide) (by decide) (by decide)

/-- C6: the emitted event's tags are `["multiline"]` exactly when the
flushed buffer holds more than one line at flush time, and `[""]`
otherwise; the flushed buffer exceeds one line exactly when the pre-flush
buffer does. -/
theorem flush_tag_law (hostname : String) (st : StreamState)
    (m : RouterMessage) (msgs : List Message)
    (h1 : IsMultiline m.data = false)
    (h2 : st.queue m.container.id = msgs) (h3 : msgs ≠ []) :
    ∃ ev, (streamStep hostname st m).events = st.events ++ [ev] ∧
      (ev.tags = ["multiline"] ↔ 1 < (flushedList msgs m).length) ∧
      (¬ 1 < (flushedList msgs m).length → ev.tags = [""]) ∧
      (1 < (flushedList msgs m).length ↔ 1 < msgs.length) := by
  rw [streamStep_flush hostname st m h1 (by rw [h2]; exact h3), h2]
  have hcount : 1 < (flushedList msgs m).length ↔ 1 < msgs.length := by
    by_cases hm2 : 1 < msgs.length
    · rw [flushedList, if_pos hm2]
      simp only [List.length_append, List.length_cons, List.length_nil]
      omega
    · rw [flushedList, if_neg hm2]
  refine ⟨_, rfl, ?_, ?_, hcount⟩
  · show GetTags (flushedList msgs m) = ["multiline"] ↔ _
    by_cases hl : 1 < (flushedList msgs m).length
    · rw [GetTags, if_pos hl]
      simp [hl]
    · rw [GetTags, if_neg hl]
      constructor
      · intro h; exact absurd h (by decide)
      · intro h; exact absurd h hl
  · intro hl
    show GetTags (flushedList msgs m) = [""]
    rw [GetTags, if_neg hl]

theorem flush_tag_law_witness :
    ∃ ev, (streamStep "H" stateTwo (sampleRecord "a" "/n" "t6")).events =
        stateTwo.events ++ [ev] ∧
      (ev.tags = ["multiline"] ↔
        1 < (flushedList bufferedTwo (sampleRecord "a" "/n" "t6")).length) ∧
      (¬ 1 < (flushedList bufferedTwo (sampleRecord "a" "/n" "t6")).length →
        ev.tags = [""]) ∧
      (1 < (flushedList bufferedTwo (sampleRecord "a" "/n" "t6")).length ↔
        1 < bufferedTwo.length) :=
  flush_tag_law "H" stateTwo (sampleRecord "a" "/n" "t6") bufferedTwo
    (by decide) (by decide) (by decide)

/-- C7: the emitted `container_name` is the record's container name with
every leading `/` removed and nothing else changed: the original name is
some number of `/` characters followed by the emitted name, and the
emitted name does not start with `/`. -/
theorem flush_name_normalization (hostname : String) (st : StreamState)
    (m : RouterMessage)
    (h1 : IsMultiline m.data = false)
    (h2 : st.queue m.container.id ≠ []) :
    ∃ ev k, (streamStep hostname st m).events = st.events ++ [ev] ∧
      ev.name = trimLeftSlash m.container.name ∧
      m.container.name.data = List.replicate k '/' ++ ev.name.data ∧
      ev.name.data.head? ≠ some '/' := by
  rw [streamStep_flush hostname st m h1 h2]
  refine ⟨_,
    (m.container.name.data.takeWhile (fun c => decide (c = '/'))).length,
    rfl, rfl, ?_, ?_⟩
  · show m.container.name.data = _ ++ (trimLeftSlash m.container.name).data
    rw [show (trimLeftSlash m.container.name).data =
        m.container.name.data.dropWhile (fun c => decide (c = '/')) from rfl]
    conv_lhs => rw [← List.takeWhile_append_dropWhile
      (p := fun c => decide (c = '/')) (l := m.container.name.data)]
    congr 1
    refine List.eq_replicate_iff.mpr ⟨rfl, ?_⟩
    intro b hb
    have := List.mem_takeWhile_imp hb
    simpa using this
  · intro hcontra
    have hsl : (trimLeftSlash m.container.name).data =
        m.container.name.data.dropWhile (fun c => decide (c = '/')) := rfl
    rw [show (flushEvent hostname m
        (flushedList (st.queue m.container.id) m)).name =
        trimLeftSlash m.container.name from rfl, hsl] at hcontra
    have := head?_dropWhile_not (fun c => decide (c = '/'))
      m.container.name.data '/' hcontra
    simp at this

theorem flush_name_normalization_witness :
    ∃ ev k, (streamStep "H" stateOne (sampleRecord "a" "//svc/app" "n7")).events =
        stateOne.events ++ [ev] ∧
      ev.name = trimLeftSlash (sampleRecord "a" "//svc/app" "n7").container.name ∧
      (sampleRecord "a" "//svc/app" "n7").container.name.data =
        List.replicate k '/' ++ ev.name.data ∧
      ev.name.data.head? ≠ some '/' :=
  flush_name_normalization "H" stateOne (sampleRecord "a" "//svc/app" "n7")
    (by decide) (by decide)

/-- C4 counterexample: on `discardRunRecords` the messages emitted for
container `c` are `["  x", "b"]` while the received data is
`["  x", "a", "b", "d"]` — the line `"a"` appears in no emitted message,
so the emitted messages are not a partition of the received lines. -/
theorem partition_claim_refuted :
    ¬ isPartitionOf (eventsFor "c" (streamRun "H" discardRunRecords).events)
      (receivedFor "c" discardRunRecords) := by
  intro hpart
  have he : eventsFor "c" (streamRun "H" discardRunRecords).events =
      ["  x", "b"] := by decide
  have hr : receivedFor "c" discardRunRecords = ["  x", "a", "b", "d"] := by
    decide
  rw [he, hr] at hpart
  obtain ⟨gs, hflat, hne, hmap⟩ := hpart
  have hjoin : joinLines (gs.map joinLines) = joinLines gs.flatten :=
    joinLines_flatten gs hne
  have hmap' : gs.map (String.intercalate "\n") = gs.map joinLines :=
    List.map_congr_left (fun g _ => intercalate_eq_joinLines g)
  rw [← hmap', ← hmap, hflat] at hjoin
  exact absurd hjoin (by decide)

/-- C4 (amended): for every record sequence and container id, the
messages emitted for that container are newline-joins of non-empty,
consecutive groups of received lines, and the concatenation of those
groups is an in-order subsequence of the received data (rather than an
exact partition: the line triggering the flush of a lone buffered
continuation is discarded, and lines still buffered at the end of the
input are never emitted). -/
theorem emitted_messages_coalesce_received (hostname : String)
    (records : List RouterMessage) (c : String) :
    ∃ groups : List (List String),
      (∀ g ∈ groups, g ≠ []) ∧
      eventsFor c (streamRun hostname records).events =
        groups.map (String.intercalate "\n") ∧
      groups.flatten.Sublist (receivedFor c records) := by
  obtain ⟨groups, hne, hev, hsub⟩ := driverInv_streamRun hostname records c
  exact ⟨groups, hne, hev,
    List.Sublist.trans (List.sublist_append_left _ _) hsub⟩

/-- C5 counterexample: the source's `Traceback ` pattern is unanchored,
so `IsMultiline` returns true on a line containing `Traceback ` in the
middle, while the claim's classifier (Traceback only at the beginning of
the line, all other patterns identical) returns false there. -/
theorem traceback_anchoring_refuted :
    IsMultiline "x Traceback y" = true ∧
      claimClassify "x Traceback y" = false := by
  decide

/-- C5 (amended): the classifier returns true exactly when the line
begins with a whitespace character, or contains `line <digits>, in `
followed by a non-newline character, or contains `Traceback ` at any
position (not only at the beginning), or contains `LINE <digits>:` at
any position; otherwise it returns false.  (Which pattern fires first is
immaterial to the boolean result.) -/
theorem isMultiline_characterization (s : String) :
    IsMultiline s = true ↔
      StartsWithWhitespace s ∨ LineFramePattern s ∨
      ContainsTracebackText s ∨ SQLContextPattern s := by
  simp only [IsMultiline, Bool.or_eq_true]
  rw [or_assoc, or_assoc]
  refine or_congr ?_ (or_congr ?_ (or_congr ?_ ?_))
  · exact startsWithSpace_iff s.data
  · rw [anySuffix_iff]
    constructor
    · rintro ⟨pre, post, hpp, hm⟩
      obtain ⟨ds, c, rest, hpost, hne, hdig, hc⟩ := (matchLineInAt_iff post).mp hm
      refine ⟨pre, ds, c, rest, ?_, hne, hdig, hc⟩
      rw [hpp, hpost]
      simp [List.append_assoc]
    · rintro ⟨pre, ds, c, rest, hs, hne, hdig, hc⟩
      refine ⟨pre, "line ".data ++ ds ++ ", in ".data ++ c :: rest, ?_,
        (matchLineInAt_iff _).mpr ⟨ds, c, rest, rfl, hne, hdig, hc⟩⟩
      rw [hs]
      simp [List.append_assoc]
  · rw [anySuffix_iff]
    constructor
    · rintro ⟨pre, post, hpp, hm⟩
      obtain ⟨v, hv⟩ := (matchTracebackAt_iff post).mp hm
      exact ⟨pre, v, by rw [hpp, hv, List.append_assoc]⟩
    · rintro ⟨pre, post, hs⟩
      exact ⟨pre, "Traceback ".data ++ post, by rw [hs, List.append_assoc],
        (matchTracebackAt_iff _).mpr ⟨post, rfl⟩⟩
  · rw [anySuffix_iff]
    constructor
    · rintro ⟨pre, post, hpp, hm⟩
      obtain ⟨ds, rest, hpost, hne, hdig⟩ := (matchLINEAt_iff post).mp hm
      refine ⟨pre, ds, rest, ?_, hne, hdig⟩
      rw [hpp, hpost]
      simp [List.append_assoc]
    · rintro ⟨pre, ds, rest, hs, hne, hdig⟩
      refine ⟨pre, "LINE ".data ++ ds ++ ':' :: rest, ?_,
        (matchLINEAt_iff _).mpr ⟨ds, rest, rfl, hne, hdig⟩⟩
      rw [hs]
      simp [List.append_assoc]

/-- C8: the `host` value is computed once before the loop: it is the
`HOSTNAME` environment value when non-empty, otherwise the operating
system's hostname, and the empty string when the OS query fails (Go's
`os.Hostname` returns `""` alongside an error, which `GetHostname` only
logs); every event emitted during the run carries that one value. -/
theorem hostname_resolution_policy (envHostname : String)
    (osHostname : String × Bool) (records : List RouterMessage)
    (hgo : osHostname.2 = true → osHostname.1 = "") :
    (envHostname ≠ "" → GetHostname envHostname osHostname = envHostname) ∧
    (envHostname = "" → GetHostname envHostname osHostname = osHostname.1) ∧
    (envHostname = "" → osHostname.2 = true →
      GetHostname envHostname osHostname = "") ∧
    (∀ ev ∈ (streamRun (GetHostname envHostname osHostname) records).events,
      ev.host = GetHostname envHostname osHostname) := by
  refine ⟨?_, ?_, ?_, streamRun_host _ records⟩
  · intro h; rw [GetHostname, if_neg h]
  · intro h; rw [GetHostname, if_pos h]
  · intro h herr; rw [GetHostname, if_pos h]; exact hgo herr

theorem hostname_resolution_policy_witness :
    GetHostname "" ("machine", false) = ("machine", false).1 :=
  (hostname_resolution_policy "" ("machine", false) [] (by decide)).2.1 rfl

/-- C9: the factory returns an adapter exactly when the transport lookup
and the dial both succeed; an unknown transport yields the error
`unable to find adapter: ` followed by the route's registered adapter
name, and a failed dial yields the dial error verbatim. -/
theorem new_adapter_factory_law {τ γ ε : Type} (lookup : String → Option τ)
    (dial : τ → String → List (String × String) → Except ε γ)
    (route : Route) :
    ((∃ a, NewAdapter lookup dial route = .ok a) ↔
      (∃ t, lookup (route.adapterTransportDefault "udp") = some t ∧
        ∃ conn, dial t route.address route.options = .ok conn)) ∧
    (lookup (route.adapterTransportDefault "udp") = none →
      NewAdapter lookup dial route =
        .error (.new ("unable to find adapter: " ++ route.adapter))) ∧
    (∀ t e, lookup (route.adapterTransportDefault "udp") = some t →
      dial t route.address route.options = .error e →
      NewAdapter lookup dial route = .error (.dial e)) := by
  refine ⟨⟨?_, ?_⟩, ?_, ?_⟩
  · rintro ⟨a, ha⟩
    cases hl : lookup (route.adapterTransportDefault "udp") with
    | none => simp [NewAdapter, hl] at ha
    | some t =>
      cases hd : dial t route.address route.options with
      | error e => simp [NewAdapter, hl, hd] at ha
      | ok conn => exact ⟨t, rfl, conn, hd⟩
  · rintro ⟨t, hl, conn, hd⟩
    exact ⟨{ conn := conn, route := route }, by simp [NewAdapter, hl, hd]⟩
  · intro hl
    simp [NewAdapter, hl]
  · intro t e hl hd
    simp [NewAdapter, hl, hd]

theorem new_adapter_factory_law_witness :
    NewAdapter (fun _ => (none : Option Unit))
        (fun _ _ _ => (.ok () : Except Unit Unit)) unitRoute =
      .error (.new ("unable to find adapter: " ++ unitRoute.adapter)) :=
  (new_adapter_factory_law (fun _ => none) (fun _ _ _ => .ok ())
    unitRoute).2.1 rfl

end Logstash
